import Mathlib

/-! # xii-go-http: request builder, client dispatch and response predicates

A shallow embedding of `internal/utils/util.go`, `pkg/http/xiirequest.go`,
`pkg/http/xiiclient.go` and `pkg/http/xiiresponse.go`.

Conventions of the embedding

* A Go `string` is the list of its bytes (`len` is the byte length, slicing
  is byte slicing).
* A Go run-time panic is the value `none` of an `Option` result.
* A Go `map[string][]string` is an association list with distinct keys,
  read with `AList.lookup` and written with `AList.insert`.  The order in
  which `range` visits a map is not fixed by Go; it is supplied by the
  platform record and is only known to be a permutation of the entries.
* Everything that the repository delegates to the Go standard library or to
  a codec library (URL parsing, form encoding, marshalling, header-key
  canonicalisation, the network round trip) is a parameter, gathered in the
  record `Platform`; general statements hold for every platform.  The
  examples run on `examplePlatform`, whose header canonicalisation is
  `textproto.CanonicalMIMEHeaderKey` as the Go documentation describes it.
* Calls to `log.Printf` only write to the log and are left out.
-/

namespace XiiHttp

/-! ## Strings -/

/-- A Go string: its bytes. -/
abbrev GoString := List UInt8

/-- The bytes (UTF-8) of a string literal of the source. -/
def lit (s : String) : GoString :=
  s.data.flatMap fun c => String.utf8EncodeChar c

/-- The Go slice expression `s[lo:hi]` on a string: it panics (`none`) unless
`lo ≤ hi ≤ len(s)`. -/
def slice (s : GoString) (lo hi : Nat) : Option GoString :=
  if lo ≤ hi ∧ hi ≤ s.length then some ((s.drop lo).take (hi - lo)) else none

/-! ## `internal/utils/util.go` -/

/-- `utils.HasPrefix(s, prefix)`:
```go
if len(s) == 0 { return true }
return s[0:len(prefix)] == prefix
```
-/
def HasPrefix (s pre : GoString) : Option Bool :=
  if s.length = 0 then some true
  else (slice s 0 pre.length).map fun head => decide (head = pre)

/-! ## Maps -/

/-- A Go `map[string][]string` (also `url.Values` and `http.Header`). -/
abbrev GoMap := AList (fun _ : GoString => List GoString)

/-- The Go index expression `m[k]` of a `map[string][]string`: the stored
slice, or the nil (empty) slice when the key is absent. -/
def GoMap.values (m : GoMap) (k : GoString) : List GoString :=
  (m.lookup k).getD []

/-! ## `pkg/http/xiirequest.go` -/

/-- `XiiRequest`.  The two maps are never nil (requests are made by
`NewXiiRequest`); `body` is the nil reader (`none`) or a reader, modelled by
the bytes it yields. -/
structure XiiRequest (Ctx : Type) where
  method : GoString
  endpoint : GoString
  headers : GoMap
  body : Option (List UInt8)
  queryParams : GoMap
  context : Ctx

namespace XiiRequest

variable {Ctx : Type}

/-- `NewXiiRequest()`; `background` is `context.Background()`. -/
def NewXiiRequest (background : Ctx) : XiiRequest Ctx :=
  { method := [], endpoint := [], headers := ∅, body := none, queryParams := ∅,
    context := background }

/-- `req.Method(method)`. -/
def Method (req : XiiRequest Ctx) (method : GoString) : XiiRequest Ctx :=
  { req with method := method }

/-- `req.Endpoint(endpoint)`: a `/` is put in front unless
`utils.HasPrefix(endpoint, "/")`; a panic of `HasPrefix` propagates. -/
def Endpoint (req : XiiRequest Ctx) (endpoint : GoString) : Option (XiiRequest Ctx) := do
  let has ← HasPrefix endpoint (lit "/")
  let endpoint := if !has then lit "/" ++ endpoint else endpoint
  pure { req with endpoint := endpoint }

/-- `req.Header(key, value)`. -/
def Header (req : XiiRequest Ctx) (key value : GoString) : XiiRequest Ctx :=
  match req.headers.lookup key with
  | some values => { req with headers := req.headers.insert key (values ++ [value]) }
  | none => { req with headers := req.headers.insert key [value] }

/-- `req.Body(body)`. -/
def Body (req : XiiRequest Ctx) (body : Option (List UInt8)) : XiiRequest Ctx :=
  { req with body := body }

/-- `req.FormBody(formData)`; `encode` is `url.Values.Encode`. -/
def FormBody (encode : GoMap → GoString) (req : XiiRequest Ctx) (formData : GoMap) :
    XiiRequest Ctx :=
  let req := req.Header (lit "Content-Type") (lit "application/x-www-form-urlencoded")
  { req with body := some (encode formData) }

/-- `req.MultipartFormBody(formData)`; `encode` is `url.Values.Encode`. -/
def MultipartFormBody (encode : GoMap → GoString) (req : XiiRequest Ctx) (formData : GoMap) :
    XiiRequest Ctx :=
  let req := req.Header (lit "Content-Type") (lit "multipart/form-data")
  { req with body := some (encode formData) }

/-- `req.TextBody(text)`. -/
def TextBody (req : XiiRequest Ctx) (text : GoString) : XiiRequest Ctx :=
  let req := req.Header (lit "Content-Type") (lit "text/plain")
  { req with body := some text }

/-- `req.JSONBody(jsonData)`; `marshal` is `json.Marshal`, `none` when it
reports an error (the error is dropped and the bytes are then nil). -/
def JSONBody {α : Type} (marshal : α → Option (List UInt8)) (req : XiiRequest Ctx)
    (jsonData : α) : XiiRequest Ctx :=
  let req := req.Header (lit "Content-Type") (lit "application/json")
  let jsonBytes := (marshal jsonData).getD []
  { req with body := some jsonBytes }

/-- `req.XMLBody(xmlData)`; `marshal` is `xml.Marshal`. -/
def XMLBody {α : Type} (marshal : α → Option (List UInt8)) (req : XiiRequest Ctx)
    (xmlData : α) : XiiRequest Ctx :=
  let req := req.Header (lit "Content-Type") (lit "application/xml")
  let xmlBytes := (marshal xmlData).getD []
  { req with body := some xmlBytes }

/-- `req.YAMLBody(yamlData)`; `marshal` is `yaml.Marshal`. -/
def YAMLBody {α : Type} (marshal : α → Option (List UInt8)) (req : XiiRequest Ctx)
    (yamlData : α) : XiiRequest Ctx :=
  let req := req.Header (lit "Content-Type") (lit "application/yaml")
  let yamlBytes := (marshal yamlData).getD []
  { req with body := some yamlBytes }

/-- `req.QueryParam(key, value)`: `url.Values.Add` appends to the values of
the key. -/
def QueryParam (req : XiiRequest Ctx) (key value : GoString) : XiiRequest Ctx :=
  { req with queryParams := req.queryParams.insert key (req.queryParams.values key ++ [value]) }

/-- `req.Context(ctx)`. -/
def Context (req : XiiRequest Ctx) (ctx : Ctx) : XiiRequest Ctx :=
  { req with context := ctx }

/-- `req.GET(endpoint)`. -/
def GET (req : XiiRequest Ctx) (endpoint : GoString) : Option (XiiRequest Ctx) :=
  (req.Method (lit "GET")).Endpoint endpoint

/-- `req.POST(endpoint)`. -/
def POST (req : XiiRequest Ctx) (endpoint : GoString) : Option (XiiRequest Ctx) :=
  (req.Method (lit "POST")).Endpoint endpoint

/-- `req.PUT(endpoint)`. -/
def PUT (req : XiiRequest Ctx) (endpoint : GoString) : Option (XiiRequest Ctx) :=
  (req.Method (lit "PUT")).Endpoint endpoint

/-- `req.DELETE(endpoint)`. -/
def DELETE (req : XiiRequest Ctx) (endpoint : GoString) : Option (XiiRequest Ctx) :=
  (req.Method (lit "DELETE")).Endpoint endpoint

/-- `req.PATCH(endpoint)`. -/
def PATCH (req : XiiRequest Ctx) (endpoint : GoString) : Option (XiiRequest Ctx) :=
  (req.Method (lit "PATCH")).Endpoint endpoint

/-- `req.GetHeaders()`. -/
def GetHeaders (req : XiiRequest Ctx) : GoMap :=
  req.headers

end XiiRequest

/-! ## `pkg/http/xiiresponse.go` -/

/-- `XiiResponse`; `StatusCode` is a Go `int`. -/
structure XiiResponse (Ctx : Type) where
  Request : XiiRequest Ctx
  StatusCode : Int
  Proto : GoString
  Headers : GoMap
  Body : List UInt8

namespace XiiResponse

variable {Ctx : Type}

/-- `resp.IsSuccess()`. -/
def IsSuccess (resp : XiiResponse Ctx) : Bool :=
  decide (resp.StatusCode ≥ 200) && decide (resp.StatusCode < 300)

/-- `resp.IsRedirect()`. -/
def IsRedirect (resp : XiiResponse Ctx) : Bool :=
  decide (resp.StatusCode ≥ 300) && decide (resp.StatusCode < 400)

/-- `resp.IsClientError()`. -/
def IsClientError (resp : XiiResponse Ctx) : Bool :=
  decide (resp.StatusCode ≥ 400) && decide (resp.StatusCode < 500)

/-- `resp.IsServerError()`. -/
def IsServerError (resp : XiiResponse Ctx) : Bool :=
  decide (resp.StatusCode ≥ 500) && decide (resp.StatusCode < 600)

/-- `resp.IsError()`. -/
def IsError (resp : XiiResponse Ctx) : Bool :=
  resp.IsClientError || resp.IsServerError

/-- `resp.TextBody()`. -/
def TextBody (resp : XiiResponse Ctx) : GoString :=
  resp.Body

end XiiResponse

/-! ## The platform: Go standard library and network -/

/-- The value of the `Proxy` field of an `*http.Transport`. -/
inductive ProxyFunc (URL : Type) where
  /-- `http.ProxyURL(u)`: the function that always yields `u`. -/
  | ProxyURL (u : URL)
  /-- Any other proxy function. -/
  | other (id : Nat)
deriving DecidableEq

/-- An `*http.Transport` (only its `Proxy` field is touched by the repository);
a nil `Proxy` is `none`. -/
structure Transport (URL : Type) where
  Proxy : Option (ProxyFunc URL)
deriving DecidableEq

/-- A non-nil `http.RoundTripper`: an `*http.Transport` or a value of some
other type. -/
inductive RoundTripper (URL : Type) where
  | httpTransport (tr : Transport URL)
  | other (id : Nat)
deriving DecidableEq

/-- The `*http.Client` held by a `XiiClient`: `Transport` (nil is `none`) and
`Timeout` (a `time.Duration`, in nanoseconds). -/
structure HttpClient (URL : Type) where
  Transport : Option (RoundTripper URL)
  Timeout : Int
deriving DecidableEq

/-- The `*http.Request` assembled by `Do`: the fields the repository reads or
writes, and the context the request carries. -/
structure HttpRequest (URL Ctx : Type) where
  Method : GoString
  URL : URL
  Header : GoMap
  Body : Option (List UInt8)
  ctx : Ctx

/-- The `*http.Response` given back by the transport; `Body` is what
`io.ReadAll(httpResp.Body)` returns. -/
structure HttpResponse (Err : Type) where
  StatusCode : Int
  Proto : GoString
  Header : GoMap
  Body : Except Err (List UInt8)

/-- What `Do` takes from the Go standard library and the network.  `σ` is the
state of the world outside the client (whatever middleware and transport may
read or change). -/
structure Platform (σ Err URL Ctx : Type) where
  /-- `context.Background()`. -/
  background : Ctx
  /-- The method check of `http.NewRequest`: the error for an invalid method. -/
  checkMethod : GoString → Option Err
  /-- `url.Parse`. -/
  parse : GoString → Except Err URL
  /-- Assignment to `URL.RawQuery`. -/
  setRawQuery : URL → GoString → URL
  /-- `url.Values.Encode`. -/
  encode : GoMap → GoString
  /-- `textproto.CanonicalMIMEHeaderKey`, applied by `http.Header.Add`. -/
  canon : GoString → GoString
  /-- The order in which the `range` loop at a place of the code (`0`: base
  headers, `1`: request headers) visits a map. -/
  range : Nat → GoMap → List (Sigma fun _ : GoString => List GoString)
  /-- A `range` loop visits every entry of the map once. -/
  range_perm : ∀ site m, (range site m).Perm m.entries
  /-- `c.client.Do(httpReq)`: the network call. -/
  send : σ → HttpClient URL → HttpRequest URL Ctx → σ × Except Err (HttpResponse Err)

/-- `http.Header.Add(key, value)`: the value is appended to the values stored
under the canonical form of the key. -/
def headerAdd (canon : GoString → GoString) (h : GoMap) (key value : GoString) : GoMap :=
  h.insert (canon key) (h.values (canon key) ++ [value])

/-- `http.NewRequest(method, url, body)`: `NewRequestWithContext` with
`context.Background()`; the new request has an empty `Header`. -/
def NewRequest {σ Err URL Ctx : Type} (P : Platform σ Err URL Ctx) (method url : GoString)
    (body : Option (List UInt8)) : Except Err (HttpRequest URL Ctx) :=
  match P.checkMethod method with
  | some err => .error err
  | none =>
    match P.parse url with
    | .error err => .error err
    | .ok u =>
      .ok { Method := if method = [] then lit "GET" else method, URL := u, Header := ∅,
            Body := body, ctx := P.background }

/-! ## `pkg/http/xiiclient.go` -/

/-- `XiiMiddleware`, a `func(*http.Request) error`: from the world and the
request to the world, the request as the middleware leaves it, and the error
(`none` is nil). -/
abbrev XiiMiddleware (σ Err URL Ctx : Type) :=
  σ → HttpRequest URL Ctx → σ × HttpRequest URL Ctx × Option Err

/-- `XiiClient`; `baseHeaders` is never nil (clients are made by `NewClient`). -/
structure XiiClient (σ Err URL Ctx : Type) where
  client : HttpClient URL
  baseURL : GoString
  baseHeaders : GoMap
  middleware : List (XiiMiddleware σ Err URL Ctx)

/-- `Option`, a `func(*XiiClient)`: the client after the call, `none` when the
option panics. -/
abbrev ClientOption (σ Err URL Ctx : Type) :=
  XiiClient σ Err URL Ctx → Option (XiiClient σ Err URL Ctx)

section Client

variable {σ Err URL Ctx : Type}

/-- The client `NewClient` starts from: `Timeout` is `30 * time.Second`, the
transport is nil, the base headers are an empty map. -/
def XiiClient.initial : XiiClient σ Err URL Ctx :=
  { client := { Transport := none, Timeout := 30 * 1000000000 },
    baseURL := [], baseHeaders := ∅, middleware := [] }

/-- `NewClient(opts...)`: the options are applied in order. -/
def NewClient (opts : List (ClientOption σ Err URL Ctx)) : Option (XiiClient σ Err URL Ctx) :=
  opts.foldlM (fun client opt => opt client) XiiClient.initial

/-- `WithBaseURL(baseURL)`. -/
def WithBaseURL (baseURL : GoString) : ClientOption σ Err URL Ctx :=
  fun hc => some { hc with baseURL := baseURL }

/-- `WithTimeout(timeout)`. -/
def WithTimeout (timeout : Int) : ClientOption σ Err URL Ctx :=
  fun hc => some { hc with client := { hc.client with Timeout := timeout } }

/-- `WithProxy(proxyStr)`; `parse` is `url.Parse`.
```go
if transport := hc.client.Transport; transport == nil {
    transport = &http.Transport{Proxy: http.ProxyURL(proxyURL)}
} else if tr, ok := transport.(*http.Transport); ok {
    tr.Proxy = http.ProxyURL(proxyURL)
}
```
In the first branch the new transport is assigned to the variable `transport`
of the `if` statement, not to `hc.client.Transport`. -/
def WithProxy (parse : GoString → Except Err URL) (proxyStr : GoString) :
    ClientOption σ Err URL Ctx :=
  fun hc =>
    match parse proxyStr with
    | .error _ => none
    | .ok proxyURL =>
      match hc.client.Transport with
      | none => some hc
      | some (.httpTransport tr) =>
        some { hc with client := { hc.client with
                Transport := some (.httpTransport { tr with Proxy := some (.ProxyURL proxyURL) }) } }
      | some (.other _) => some hc

/-- `WithHeader(key, value)`. -/
def WithHeader (key value : GoString) : ClientOption σ Err URL Ctx :=
  fun hc =>
    match hc.baseHeaders.lookup key with
    | some values => some { hc with baseHeaders := hc.baseHeaders.insert key (values ++ [value]) }
    | none => some { hc with baseHeaders := hc.baseHeaders.insert key [value] }

/-- `c.Use(mw)`. -/
def XiiClient.Use (c : XiiClient σ Err URL Ctx) (mw : XiiMiddleware σ Err URL Ctx) :
    XiiClient σ Err URL Ctx :=
  { c with middleware := c.middleware ++ [mw] }

/-- The two nested loops of `Do` over a map, in the given order of its
entries: `httpReq.Header.Add(key, value)` for every value of every key. -/
def addHeaders (canon : GoString → GoString)
    (entries : List (Sigma fun _ : GoString => List GoString)) (h : GoMap) : GoMap :=
  entries.foldl (fun h e => e.2.foldl (fun h value => headerAdd canon h e.1 value) h) h

/-- `Do`, from its start to the end of the header merge: the outgoing request
before any middleware runs, or the error of `http.NewRequest`. -/
def XiiClient.assemble (P : Platform σ Err URL Ctx) (c : XiiClient σ Err URL Ctx)
    (req : XiiRequest Ctx) : Except Err (HttpRequest URL Ctx) :=
  let fullURL := c.baseURL ++ req.endpoint
  match NewRequest P req.method fullURL req.body with
  | .error err => .error err
  | .ok httpReq =>
    let httpReq :=
      if req.queryParams.entries.length > 0 then
        { httpReq with URL := P.setRawQuery httpReq.URL (P.encode req.queryParams) }
      else httpReq
    let httpReq :=
      { httpReq with Header := addHeaders P.canon (P.range 0 c.baseHeaders) httpReq.Header }
    let httpReq :=
      { httpReq with Header := addHeaders P.canon (P.range 1 req.headers) httpReq.Header }
    .ok httpReq

/-- What `Do` is observed to call: the middleware at a position of the list,
or the network call with the request it is handed. -/
inductive Event (URL Ctx : Type) where
  | middleware (index : Nat)
  | roundTrip (httpReq : HttpRequest URL Ctx)

/-- What `Do` leaves behind: the returned pair (a nil response with an error,
or a response with a nil error), the world, and the calls made, in order. -/
structure Outcome (σ Err URL Ctx : Type) where
  result : Except Err (XiiResponse Ctx)
  world : σ
  trace : List (Event URL Ctx)

/-- The middleware loop of `Do`, from position `index` on: it stops at the
first error. -/
def applyMiddleware : List (XiiMiddleware σ Err URL Ctx) → Nat → σ → HttpRequest URL Ctx →
    List (Event URL Ctx) → σ × HttpRequest URL Ctx × List (Event URL Ctx) × Option Err
  | [], _, w, httpReq, trace => (w, httpReq, trace, none)
  | mw :: rest, index, w, httpReq, trace =>
    match mw w httpReq with
    | (w, httpReq, some err) => (w, httpReq, trace ++ [.middleware index], some err)
    | (w, httpReq, none) => applyMiddleware rest (index + 1) w httpReq (trace ++ [.middleware index])

/-- `c.Do(req)`, started in world `w`. -/
def XiiClient.Do (P : Platform σ Err URL Ctx) (c : XiiClient σ Err URL Ctx)
    (req : XiiRequest Ctx) (w : σ) : Outcome σ Err URL Ctx :=
  match c.assemble P req with
  | .error err => { result := .error err, world := w, trace := [] }
  | .ok httpReq =>
    match applyMiddleware c.middleware 0 w httpReq [] with
    | (w, _, trace, some err) => { result := .error err, world := w, trace := trace }
    | (w, httpReq, trace, none) =>
      match P.send w c.client httpReq with
      | (w, .error err) =>
        { result := .error err, world := w, trace := trace ++ [.roundTrip httpReq] }
      | (w, .ok httpResp) =>
        match httpResp.Body with
        | .error err =>
          { result := .error err, world := w, trace := trace ++ [.roundTrip httpReq] }
        | .ok body =>
          { result := .ok { Request := req, StatusCode := httpResp.StatusCode,
                            Proto := httpResp.Proto, Headers := httpResp.Header, Body := body },
            world := w, trace := trace ++ [.roundTrip httpReq] }

end Client

/-! ## `textproto.CanonicalMIMEHeaderKey` of the Go standard library -/

/-- The bytes allowed in a header field name (the `token` characters of
RFC 7230): letters, digits and ``!#$%&'*+-.^_`|~``. -/
def validHeaderFieldByte (c : UInt8) : Bool :=
  (97 ≤ c && c ≤ 122) || (65 ≤ c && c ≤ 90) || (48 ≤ c && c ≤ 57) ||
  [33, 35, 36, 37, 38, 39, 42, 43, 45, 46, 94, 95, 96, 124, 126].contains c

/-- The canonicalisation loop: a letter is made upper case when `upper` holds
(at the start and after a `-`), lower case otherwise. -/
def canonicalBytes : Bool → GoString → GoString
  | _, [] => []
  | upper, c :: rest =>
    let c :=
      if upper && 97 ≤ c && c ≤ 122 then c - 32
      else if !upper && 65 ≤ c && c ≤ 90 then c + 32
      else c
    c :: canonicalBytes (c == 45) rest

/-- `textproto.CanonicalMIMEHeaderKey(s)`, after its documentation: the first
letter and any letter following a hyphen are converted to upper case, the rest
to lower case; a key with a space or an invalid header field byte is returned
without modification. -/
def CanonicalMIMEHeaderKey (s : GoString) : GoString :=
  if s.all validHeaderFieldByte then canonicalBytes true s else s

/-! ## Concrete values for the examples -/

/-- A platform for the examples: the header canonicalisation of the Go
standard library, maps ranged in their stored order, every method and URL
accepted, a transport that answers `200` with an empty body and counts its
calls in the world, and contexts `false` (`context.Background()`) and `true`
(any other context). -/
def examplePlatform : Platform Nat GoString GoString Bool where
  background := false
  checkMethod := fun _ => none
  parse := fun s => .ok s
  setRawQuery := fun u q => u ++ lit "?" ++ q
  encode := fun _ => []
  canon := CanonicalMIMEHeaderKey
  range := fun _ m => m.entries
  range_perm := fun _ _ => List.Perm.refl _
  send := fun w _ _ =>
    (w + 1, .ok { StatusCode := 200, Proto := lit "HTTP/1.1", Header := ∅, Body := .ok [] })

/-- A client of the examples: `NewClient()` with no option. -/
def exampleClient : XiiClient Nat GoString GoString Bool :=
  XiiClient.initial

/-- A middleware that accepts the request and adds `100` to the world. -/
def passingMiddleware : XiiMiddleware Nat GoString GoString Bool :=
  fun w httpReq => (w + 100, httpReq, none)

/-- A middleware that reports the error `"denied"` and adds `10` to the world. -/
def failingMiddleware : XiiMiddleware Nat GoString GoString Bool :=
  fun w httpReq => (w + 10, httpReq, some (lit "denied"))

/-- The request `NewXiiRequest().Method("GET")` with endpoint `/users`. -/
def exampleRequest : XiiRequest Bool :=
  { (XiiRequest.NewXiiRequest false).Method (lit "GET") with endpoint := lit "/users" }

/-- The outgoing request `Do` assembles for `exampleRequest` on
`exampleClient`. -/
def exampleOutgoing : HttpRequest GoString Bool :=
  { Method := lit "GET", URL := lit "/users", Header := ∅, Body := none, ctx := false }

/-- The client `NewClient(WithHeader("x-env", "test"))`. -/
def lowerCaseClient : XiiClient Nat GoString GoString Bool :=
  { XiiClient.initial with baseHeaders := (∅ : GoMap).insert (lit "x-env") [lit "test"] }

/-- The client `NewClient(WithHeader("x-env", "a"), WithHeader("X-Env", "b"))`. -/
def mixedCaseClient : XiiClient Nat GoString GoString Bool :=
  { XiiClient.initial with
    baseHeaders := ((∅ : GoMap).insert (lit "x-env") [lit "a"]).insert (lit "X-Env") [lit "b"] }

/-- The request `exampleRequest` after `Header("x-env", "req")`. -/
def headerRequest : XiiRequest Bool :=
  exampleRequest.Header (lit "x-env") (lit "req")

/-- The outgoing request `Do` assembles for `headerRequest` on
`lowerCaseClient`. -/
def mergedOutgoing : HttpRequest GoString Bool :=
  { exampleOutgoing with Header := (∅ : GoMap).insert (lit "X-Env") [lit "test", lit "req"] }

/-! # Theorems -/

/-! ## Strings and `HasPrefix` -/

theorem lit_slash : lit "/" = [47] := by decide

theorem slice_zero (s : GoString) (n : Nat) :
    slice s 0 n = if n ≤ s.length then some (s.take n) else none := by
  simp [slice]

/-- What `HasPrefix` does on every input: `true` on an empty subject, a panic on
a non-empty subject shorter than the prefix, the prefix test otherwise. -/
theorem HasPrefix_eq (s pre : GoString) :
    HasPrefix s pre =
      if s = [] then some true
      else if pre.length ≤ s.length then some (decide (pre <+: s)) else none := by
  unfold HasPrefix
  by_cases hs : s = []
  · simp [hs]
  · have hlen : s.length ≠ 0 := fun h => hs (List.length_eq_zero.mp h)
    rw [if_neg hlen, if_neg hs, slice_zero]
    by_cases hle : pre.length ≤ s.length
    · rw [if_pos hle, if_pos hle]
      simp only [Option.map_some', Option.some.injEq, decide_eq_decide]
      exact eq_comm.trans (List.prefix_iff_eq_take).symm
    · rw [if_neg hle, if_neg hle]
      rfl

theorem HasPrefix_slash (e : GoString) :
    HasPrefix e (lit "/") = some (decide (e = [] ∨ lit "/" <+: e)) := by
  rw [HasPrefix_eq, lit_slash]
  cases e with
  | nil => simp
  | cons c t => simp

/-- Claim C10, on the code: on the non-empty subject `"a"` and the longer
prefix `"ab"` the slice `s[0:len(prefix)]` is out of range and `HasPrefix`
panics instead of returning `false`; on every input, `HasPrefix` returns `true`
for an empty subject, panics for a non-empty subject shorter than the prefix,
and otherwise returns whether the subject begins with the prefix. -/
theorem HasPrefix_short_subject_panics :
    HasPrefix (lit "a") (lit "ab") = none ∧
    ∀ s pre : GoString,
      HasPrefix s pre =
        if s = [] then some true
        else if pre.length ≤ s.length then some (decide (pre <+: s)) else none :=
  ⟨by decide, HasPrefix_eq⟩

/-! ## The request builder -/

section Request

variable {Ctx : Type}

theorem Endpoint_eq (req : XiiRequest Ctx) (e : GoString) :
    req.Endpoint e =
      some { req with endpoint := if e = [] ∨ lit "/" <+: e then e else lit "/" ++ e } := by
  unfold XiiRequest.Endpoint
  rw [HasPrefix_slash]
  by_cases h : e = [] ∨ lit "/" <+: e
  · simp [h]
  · simp [h]

/-- Claim C1: for every endpoint string `e`, `Endpoint(e)` and the five
shorthands `GET/POST/PUT/DELETE/PATCH(e)` complete without a panic and leave the
endpoint equal to `e` when `e` is empty or begins with `/`, and to `/` followed
by `e` otherwise (the shorthands also set the method, and nothing else
changes). -/
theorem Endpoint_normalises (req : XiiRequest Ctx) (e : GoString) :
    req.Endpoint e =
        some { req with endpoint := if e = [] ∨ lit "/" <+: e then e else lit "/" ++ e } ∧
    req.GET e =
        some { req with method := lit "GET",
                        endpoint := if e = [] ∨ lit "/" <+: e then e else lit "/" ++ e } ∧
    req.POST e =
        some { req with method := lit "POST",
                        endpoint := if e = [] ∨ lit "/" <+: e then e else lit "/" ++ e } ∧
    req.PUT e =
        some { req with method := lit "PUT",
                        endpoint := if e = [] ∨ lit "/" <+: e then e else lit "/" ++ e } ∧
    req.DELETE e =
        some { req with method := lit "DELETE",
                        endpoint := if e = [] ∨ lit "/" <+: e then e else lit "/" ++ e } ∧
    req.PATCH e =
        some { req with method := lit "PATCH",
                        endpoint := if e = [] ∨ lit "/" <+: e then e else lit "/" ++ e } := by
  refine ⟨Endpoint_eq req e, ?_, ?_, ?_, ?_, ?_⟩ <;>
    simp only [XiiRequest.GET, XiiRequest.POST, XiiRequest.PUT, XiiRequest.DELETE,
      XiiRequest.PATCH, Endpoint_eq, XiiRequest.Method]

theorem Header_lookup (req : XiiRequest Ctx) (k v k2 : GoString) :
    (req.Header k v).headers.lookup k2 =
      if k2 = k then some (req.headers.values k ++ [v]) else req.headers.lookup k2 := by
  unfold XiiRequest.Header GoMap.values
  by_cases h : k2 = k
  · subst h
    cases hl : req.headers.lookup k2 <;> simp
  · cases hl : req.headers.lookup k <;> simp [h]

theorem Header_values (req : XiiRequest Ctx) (k v k2 : GoString) :
    (req.Header k v).headers.values k2 =
      if k2 = k then req.headers.values k ++ [v] else req.headers.values k2 := by
  unfold GoMap.values
  rw [Header_lookup]
  by_cases h : k2 = k <;> simp [h, GoMap.values]

theorem Header_foldl_lookup (k : GoString) (vs : List GoString) :
    ∀ (req : XiiRequest Ctx) (k2 : GoString),
      (vs.foldl (fun r v => r.Header k v) req).headers.lookup k2 =
        if k2 = k ∧ vs ≠ [] then some (req.headers.values k ++ vs)
        else req.headers.lookup k2 := by
  induction vs with
  | nil => intro req k2; simp
  | cons v rest ih =>
    intro req k2
    rw [List.foldl_cons, ih, Header_values, Header_lookup]
    by_cases h : k2 = k
    · by_cases hr : rest = []
      · simp [h, hr]
      · simp [h, hr]
    · simp [h]

/-- Claim C2: for every request, key `k` and values `v1..vn`, after
`Header(k, v1), ..., Header(k, vn)` the values `GetHeaders` holds under `k` are
the values `k` held before followed by `v1..vn` in that order; on a new request
they are exactly `v1..vn`; and what is stored under every other key is
unchanged. -/
theorem Header_accumulates (req : XiiRequest Ctx) (background : Ctx) (k : GoString)
    (vs : List GoString) :
    (vs.foldl (fun r v => r.Header k v) req).GetHeaders.values k
        = req.GetHeaders.values k ++ vs ∧
    (vs.foldl (fun r v => r.Header k v) (XiiRequest.NewXiiRequest background)).GetHeaders.values k
        = vs ∧
    ∀ k2 : GoString, k2 ≠ k →
      (vs.foldl (fun r v => r.Header k v) req).GetHeaders.lookup k2
        = req.GetHeaders.lookup k2 := by
  have key : ∀ r : XiiRequest Ctx,
      (vs.foldl (fun r v => r.Header k v) r).headers.values k = r.headers.values k ++ vs := by
    intro r
    unfold GoMap.values
    rw [Header_foldl_lookup]
    by_cases hv : vs = []
    · simp [hv]
    · simp [hv, GoMap.values]
  refine ⟨key req, ?_, ?_⟩
  · have := key (XiiRequest.NewXiiRequest background)
    simpa [XiiRequest.GetHeaders, XiiRequest.NewXiiRequest, GoMap.values] using this
  · intro k2 h
    simp only [XiiRequest.GetHeaders, Header_foldl_lookup, h, false_and, if_false]

end Request

/-! ## The response predicates -/

section Response

variable {Ctx : Type}

/-- Claim C3: for every status code, `IsSuccess`, `IsRedirect`, `IsClientError`
and `IsServerError` are true exactly on 200..299, 300..399, 400..499 and
500..599; exactly one of these four and "other" (none of the four) holds;
`IsError` is true iff `IsClientError` or `IsServerError` is; and for 404
`IsClientError` and `IsError` are true and `IsSuccess` is false. -/
theorem status_bands (resp : XiiResponse Ctx) :
    (resp.IsSuccess = true ↔ 200 ≤ resp.StatusCode ∧ resp.StatusCode ≤ 299) ∧
    (resp.IsRedirect = true ↔ 300 ≤ resp.StatusCode ∧ resp.StatusCode ≤ 399) ∧
    (resp.IsClientError = true ↔ 400 ≤ resp.StatusCode ∧ resp.StatusCode ≤ 499) ∧
    (resp.IsServerError = true ↔ 500 ≤ resp.StatusCode ∧ resp.StatusCode ≤ 599) ∧
    List.count true
      [resp.IsSuccess, resp.IsRedirect, resp.IsClientError, resp.IsServerError,
        !(resp.IsSuccess || resp.IsRedirect || resp.IsClientError || resp.IsServerError)] = 1 ∧
    (resp.IsError = true ↔ resp.IsClientError = true ∨ resp.IsServerError = true) ∧
    ({ resp with StatusCode := 404 } : XiiResponse Ctx).IsClientError = true ∧
    ({ resp with StatusCode := 404 } : XiiResponse Ctx).IsError = true ∧
    ({ resp with StatusCode := 404 } : XiiResponse Ctx).IsSuccess = false := by
  have hS : resp.IsSuccess = true ↔ 200 ≤ resp.StatusCode ∧ resp.StatusCode ≤ 299 := by
    simp only [XiiResponse.IsSuccess, Bool.and_eq_true, decide_eq_true_eq]; omega
  have hR : resp.IsRedirect = true ↔ 300 ≤ resp.StatusCode ∧ resp.StatusCode ≤ 399 := by
    simp only [XiiResponse.IsRedirect, Bool.and_eq_true, decide_eq_true_eq]; omega
  have hC : resp.IsClientError = true ↔ 400 ≤ resp.StatusCode ∧ resp.StatusCode ≤ 499 := by
    simp only [XiiResponse.IsClientError, Bool.and_eq_true, decide_eq_true_eq]; omega
  have hV : resp.IsServerError = true ↔ 500 ≤ resp.StatusCode ∧ resp.StatusCode ≤ 599 := by
    simp only [XiiResponse.IsServerError, Bool.and_eq_true, decide_eq_true_eq]; omega
  refine ⟨hS, hR, hC, hV, ?_, ?_, ?_, ?_, ?_⟩
  · cases h1 : resp.IsSuccess <;> cases h2 : resp.IsRedirect <;>
      cases h3 : resp.IsClientError <;> cases h4 : resp.IsServerError <;>
      first
        | rfl
        | (exfalso
           have a1 := hS.mp
           have a2 := hR.mp
           have a3 := hC.mp
           have a4 := hV.mp
           simp only [h1, h2, h3, h4, true_implies, false_implies] at a1 a2 a3 a4
           omega)
  · simp [XiiResponse.IsError]
  · simp [XiiResponse.IsClientError]
  · simp [XiiResponse.IsError, XiiResponse.IsClientError]
  · simp [XiiResponse.IsSuccess]

end Response

/-! ## Middleware -/

section Middleware

variable {σ Err URL Ctx : Type}

theorem foldl_Use (mws : List (XiiMiddleware σ Err URL Ctx)) :
    ∀ c : XiiClient σ Err URL Ctx,
      mws.foldl XiiClient.Use c = { c with middleware := c.middleware ++ mws } := by
  induction mws with
  | nil => intro c; simp
  | cons mw rest ih =>
    intro c
    rw [List.foldl_cons, ih]
    simp [XiiClient.Use]

/-- The middleware loop while the middleware pass: when the first `n` members
of the list accept the request, each on the world and request its predecessor
left, the loop calls them in the order of the list and goes on with the rest of
the list from the world and request the `n`-th left. -/
theorem applyMiddleware_passing :
    ∀ (n : Nat) (mws : List (XiiMiddleware σ Err URL Ctx)) (index : Nat) (ws : Nat → σ)
      (rs : Nat → HttpRequest URL Ctx) (trace : List (Event URL Ctx)),
      n ≤ mws.length →
      (∀ (j : Nat) (m : XiiMiddleware σ Err URL Ctx), j < n → mws[j]? = some m →
          m (ws j) (rs j) = (ws (j + 1), rs (j + 1), none)) →
      applyMiddleware mws index (ws 0) (rs 0) trace =
        applyMiddleware (mws.drop n) (index + n) (ws n) (rs n)
          (trace ++ (List.range' index n).map Event.middleware) := by
  intro n
  induction n with
  | zero => intro mws index ws rs trace _ _; simp
  | succ n ih =>
    intro mws index ws rs trace hn hpass
    cases mws with
    | nil => simp at hn
    | cons m rest =>
      have h0 := hpass 0 m (Nat.succ_pos n) (by simp)
      simp only [Nat.zero_add] at h0
      have hlen : n ≤ rest.length := by simpa using hn
      have step := ih rest (index + 1) (fun j => ws (j + 1)) (fun j => rs (j + 1))
        (trace ++ [Event.middleware index]) hlen
        (fun j m2 hj hm => hpass (j + 1) m2 (Nat.succ_lt_succ hj) (by simpa using hm))
      simp only [Nat.zero_add] at step
      simp only [applyMiddleware, h0, List.drop_succ_cons]
      rw [step]
      simp [List.range'_succ, List.append_assoc, Nat.add_assoc, Nat.add_comm 1 n]

/-- Claim C4: for a client whose middleware `m1..mn` were registered by `Use` in
that order and a request for which the outgoing HTTP request is constructed,
`Do` runs the middleware in registration order, each on the world and request
left by the one before.  As long as the first `n` of them pass: if the next one,
`mi`, returns an error, `Do` returns a nil response with exactly that error, the
calls made are those of `m1..mi` and nothing else (`m(i+1)..mn` are not run and
the network call is not made); and if all of them pass, the calls made are those
of all the middleware in order followed by the one network call, on the world
and request the last middleware left, and `Do` returns what that call gives. -/
theorem Do_runs_middleware_in_order (P : Platform σ Err URL Ctx)
    (c0 : XiiClient σ Err URL Ctx) (req : XiiRequest Ctx) (w : σ)
    (mws : List (XiiMiddleware σ Err URL Ctx)) (r0 : HttpRequest URL Ctx)
    (ws : Nat → σ) (rs : Nat → HttpRequest URL Ctx) (n : Nat)
    (hnew : c0.middleware = [])
    (hasm : XiiClient.assemble P (mws.foldl XiiClient.Use c0) req = .ok r0)
    (hw : ws 0 = w) (hr : rs 0 = r0) (hn : n ≤ mws.length)
    (hpass : ∀ (j : Nat) (m : XiiMiddleware σ Err URL Ctx), j < n → mws[j]? = some m →
        m (ws j) (rs j) = (ws (j + 1), rs (j + 1), none)) :
    (mws.foldl XiiClient.Use c0).middleware = mws ∧
    (∀ (mi : XiiMiddleware σ Err URL Ctx) (e : Err) (w2 : σ) (r2 : HttpRequest URL Ctx),
      mws[n]? = some mi → mi (ws n) (rs n) = (w2, r2, some e) →
      XiiClient.Do P (mws.foldl XiiClient.Use c0) req w =
        { result := .error e, world := w2,
          trace := (List.range (n + 1)).map Event.middleware }) ∧
    (n = mws.length →
      XiiClient.Do P (mws.foldl XiiClient.Use c0) req w =
        { result :=
            match (P.send (ws n) (mws.foldl XiiClient.Use c0).client (rs n)).2 with
            | .error err => .error err
            | .ok httpResp =>
              match httpResp.Body with
              | .error err => .error err
              | .ok body =>
                .ok { Request := req, StatusCode := httpResp.StatusCode,
                      Proto := httpResp.Proto, Headers := httpResp.Header, Body := body },
          world := (P.send (ws n) (mws.foldl XiiClient.Use c0).client (rs n)).1,
          trace := (List.range n).map Event.middleware ++ [Event.roundTrip (rs n)] }) := by
  have hmw : (mws.foldl XiiClient.Use c0).middleware = mws := by
    rw [foldl_Use]; simp [hnew]
  have hloop := applyMiddleware_passing n mws 0 ws rs [] hn hpass
  rw [hw, hr] at hloop
  simp only [Nat.zero_add, List.nil_append] at hloop
  refine ⟨hmw, ?_, ?_⟩
  · intro mi e w2 r2 hmi hfail
    obtain ⟨hlt, hget⟩ := List.getElem?_eq_some_iff.mp hmi
    have hdrop : mws.drop n = mi :: mws.drop (n + 1) := by
      rw [List.drop_eq_getElem_cons hlt, hget]
    unfold XiiClient.Do
    rw [hasm, hmw]
    simp only [hloop, hdrop, applyMiddleware, hfail]
    simp [List.range_eq_range', List.range'_concat]
  · intro hall
    have hdrop : mws.drop n = [] := by rw [hall]; exact List.drop_length mws
    unfold XiiClient.Do
    rw [hasm, hmw]
    simp only [hloop, hdrop, applyMiddleware, List.range_eq_range']
    rcases hsend : P.send (ws n) (mws.foldl XiiClient.Use c0).client (rs n) with
      ⟨w3, err | httpResp⟩
    · rfl
    · simp only
      cases httpResp.Body <;> rfl

end Middleware

/-- Claim C4 at concrete clients.  With a passing, a failing and a passing
middleware registered by `Use`, `Do` returns the error of the second, the world
shows the first two calls only (`100 + 10`), and the transport is not called.
With two passing middleware, both are called in order, then the transport
(`100 + 100 + 1`), and `Do` returns its response. -/
theorem Do_runs_middleware_in_order_witness :
    XiiClient.Do examplePlatform
        ([passingMiddleware, failingMiddleware, passingMiddleware].foldl
          XiiClient.Use exampleClient) exampleRequest 0 =
      { result := .error (lit "denied"), world := 110,
        trace := [Event.middleware 0, Event.middleware 1] } ∧
    XiiClient.Do examplePlatform
        ([passingMiddleware, passingMiddleware].foldl XiiClient.Use exampleClient)
        exampleRequest 0 =
      { result := .ok { Request := exampleRequest, StatusCode := 200, Proto := lit "HTTP/1.1",
                        Headers := ∅, Body := [] },
        world := 201,
        trace := [Event.middleware 0, Event.middleware 1, Event.roundTrip exampleOutgoing] } :=
  ⟨(Do_runs_middleware_in_order examplePlatform exampleClient exampleRequest 0
      [passingMiddleware, failingMiddleware, passingMiddleware] exampleOutgoing
      (fun j => 100 * j) (fun _ => exampleOutgoing) 1 rfl rfl rfl rfl (by decide)
      (fun j m hj hm => by
        have hj0 : j = 0 := by omega
        subst hj0
        have hm0 : passingMiddleware = m := by simpa using hm
        subst hm0
        rfl)).2.1 failingMiddleware (lit "denied") 110 exampleOutgoing rfl rfl,
   (Do_runs_middleware_in_order examplePlatform exampleClient exampleRequest 0
      [passingMiddleware, passingMiddleware] exampleOutgoing
      (fun j => 100 * j) (fun _ => exampleOutgoing) 2 rfl rfl rfl rfl (by decide)
      (fun j m hj hm => by
        have hcases : j = 0 ∨ j = 1 := by omega
        rcases hcases with h | h <;> subst h
        · have hm0 : passingMiddleware = m := by simpa using hm
          subst hm0
          rfl
        · have hm0 : passingMiddleware = m := by simpa using hm
          subst hm0
          rfl)).2.2 rfl⟩

/-! ## The header merge -/

section Merge

variable {σ Err URL Ctx : Type}

theorem values_insert (m : GoMap) (k c : GoString) (vs : List GoString) :
    GoMap.values (m.insert k vs) c = if k = c then vs else m.values c := by
  unfold GoMap.values
  by_cases h : k = c
  · subst h; simp
  · have hne : c ≠ k := fun e => h e.symm
    simp [h, AList.lookup_insert_ne hne]

theorem headerAdd_values (canon : GoString → GoString) (h : GoMap) (k v c : GoString) :
    (headerAdd canon h k v).values c =
      if canon k = c then h.values c ++ [v] else h.values c := by
  unfold headerAdd
  rw [values_insert]
  by_cases hc : canon k = c
  · simp [hc]
  · simp [hc]

theorem headerAdd_foldl_values (canon : GoString → GoString) (k c : GoString)
    (vs : List GoString) :
    ∀ h : GoMap,
      (vs.foldl (fun h value => headerAdd canon h k value) h).values c =
        if canon k = c then h.values c ++ vs else h.values c := by
  induction vs with
  | nil => intro h; simp
  | cons v rest ih =>
    intro h
    rw [List.foldl_cons, ih, headerAdd_values]
    by_cases hc : canon k = c
    · simp [hc]
    · simp [hc]

/-- The values a header holds under a key after the merge loops: what it held,
followed by the values of every visited key whose canonical form is that key,
key after key in the order of the visit. -/
theorem addHeaders_values (canon : GoString → GoString) (c : GoString)
    (entries : List (Sigma fun _ : GoString => List GoString)) :
    ∀ h : GoMap,
      (addHeaders canon entries h).values c =
        h.values c ++ (entries.filter fun e => decide (canon e.1 = c)).flatMap fun e => e.2 := by
  induction entries with
  | nil => intro h; simp [addHeaders]
  | cons e rest ih =>
    intro h
    have hstep : addHeaders canon (e :: rest) h =
        addHeaders canon rest (e.2.foldl (fun h value => headerAdd canon h e.1 value) h) := rfl
    rw [hstep, ih, headerAdd_foldl_values]
    by_cases hc : canon e.1 = c
    · simp [hc, List.filter_cons]
    · simp [hc, List.filter_cons]

theorem filter_key_eq (k : GoString) :
    ∀ l : List (Sigma fun _ : GoString => List GoString), l.NodupKeys →
      l.filter (fun e => decide (e.1 = k)) =
        ((l.dlookup k).toList.map fun vs => (⟨k, vs⟩ : Sigma fun _ : GoString => List GoString)) := by
  intro l
  induction l with
  | nil => intro _; simp
  | cons e rest ih =>
    intro hnd
    obtain ⟨hnot, hrest⟩ := List.nodupKeys_cons.mp hnd
    obtain ⟨a, vs⟩ := e
    by_cases h : a = k
    · subst h
      have hnone : rest.dlookup a = none := List.dlookup_eq_none.mpr hnot
      have hnil : rest.filter (fun e => decide (e.1 = a)) = [] := by
        rw [ih hrest, hnone]; rfl
      simp [List.filter_cons, hnil, List.dlookup_cons_eq]
    · have hne : k ≠ a := fun e => h e.symm
      rw [List.filter_cons, List.dlookup_cons_ne rest ⟨a, vs⟩ hne]
      simp [h, ih hrest]

/-- The values one map contributes under the canonical form of `k` when no
other key of the map has that canonical form: the values stored under `k`,
whatever the order of the visit. -/
theorem contribution_eq (canon : GoString → GoString) (m : GoMap) (k : GoString)
    (order : List (Sigma fun _ : GoString => List GoString)) (hperm : order.Perm m.entries)
    (hk : ∀ k2 : GoString, k2 ∈ m.keys → (canon k2 = canon k ↔ k2 = k)) :
    ((order.filter fun e => decide (canon e.1 = canon k)).flatMap fun e => e.2) = m.values k := by
  have hcongr : (order.filter fun e => decide (canon e.1 = canon k)) =
      order.filter fun e => decide (e.1 = k) := by
    apply List.filter_congr
    intro e he
    have hmem : e.1 ∈ m.keys := List.mem_keys_of_mem (hperm.subset he)
    have := hk e.1 hmem
    by_cases h : e.1 = k
    · simp [h]
    · simp [h, this.not.mpr h]
  have hp : (order.filter fun e => decide (e.1 = k)).Perm
      ((m.lookup k).toList.map fun vs => (⟨k, vs⟩ : Sigma fun _ : GoString => List GoString)) := by
    have := hperm.filter (fun e => decide (e.1 = k))
    rwa [filter_key_eq k m.entries m.nodupKeys] at this
  rw [hcongr]
  unfold GoMap.values
  cases hl : m.lookup k with
  | none =>
    rw [hl] at hp
    have : (order.filter fun e => decide (e.1 = k)) = [] := List.perm_nil.mp hp
    simp [this]
  | some vs =>
    rw [hl] at hp
    have : (order.filter fun e => decide (e.1 = k)) = [⟨k, vs⟩] := List.perm_singleton.mp hp
    simp [this]

/-- The values of a key of a map are a block of what the map contributes under
the canonical form of the key. -/
theorem contribution_sublist (canon : GoString → GoString) (m : GoMap) (k : GoString)
    (order : List (Sigma fun _ : GoString => List GoString)) (hperm : order.Perm m.entries) :
    (m.values k).Sublist
      ((order.filter fun e => decide (canon e.1 = canon k)).flatMap fun e => e.2) := by
  unfold GoMap.values
  cases hl : m.lookup k with
  | none => simp
  | some vs =>
    have hmem : (⟨k, vs⟩ : Sigma fun _ : GoString => List GoString) ∈ m.entries :=
      AList.mem_lookup_iff.mp hl
    have hin : (⟨k, vs⟩ : Sigma fun _ : GoString => List GoString) ∈
        order.filter fun e => decide (canon e.1 = canon k) := by
      rw [List.mem_filter]
      exact ⟨hperm.symm.subset hmem, by simp⟩
    simp only [Option.getD_some, List.flatMap]
    exact List.sublist_flatten_of_mem (List.mem_map.mpr ⟨_, hin, rfl⟩)

theorem assemble_header (P : Platform σ Err URL Ctx) (c : XiiClient σ Err URL Ctx)
    (req : XiiRequest Ctx) (r : HttpRequest URL Ctx) (hasm : c.assemble P req = .ok r) :
    r.Header = addHeaders P.canon (P.range 1 req.headers)
      (addHeaders P.canon (P.range 0 c.baseHeaders) ∅) := by
  unfold XiiClient.assemble NewRequest at hasm
  cases hm : P.checkMethod req.method with
  | some err => simp [hm] at hasm
  | none =>
    cases hp : P.parse (c.baseURL ++ req.endpoint) with
    | error err => simp [hm, hp] at hasm
    | ok u =>
      simp only [hm, hp, Except.ok.injEq] at hasm
      rw [← hasm]
      split <;> rfl

end Merge

section MergeClaims

variable {σ Err URL Ctx : Type}

/-- Claim C5, as amended: for every client and request for which `Do`
constructs the outgoing HTTP request and every header key `k`, the request
carries, before middleware run, under the canonical form of `k` the client's
base-header values for `k` in their stored order and after them the request's
header values for `k` in their stored order, none dropped or replaced; and when
`k` is the only key of the two maps with that canonical form these are exactly
the values carried there. -/
theorem merged_header_values (P : Platform σ Err URL Ctx) (c : XiiClient σ Err URL Ctx)
    (req : XiiRequest Ctx) (r : HttpRequest URL Ctx) (hasm : c.assemble P req = .ok r)
    (k : GoString) :
    (c.baseHeaders.values k ++ req.headers.values k).Sublist (r.Header.values (P.canon k)) ∧
    ((∀ k2 : GoString, k2 ∈ c.baseHeaders.keys ∨ k2 ∈ req.headers.keys →
        (P.canon k2 = P.canon k ↔ k2 = k)) →
      r.Header.values (P.canon k) = c.baseHeaders.values k ++ req.headers.values k) := by
  have hval : r.Header.values (P.canon k) =
      ((P.range 0 c.baseHeaders).filter fun e => decide (P.canon e.1 = P.canon k)).flatMap
          (fun e => e.2) ++
        ((P.range 1 req.headers).filter fun e => decide (P.canon e.1 = P.canon k)).flatMap
          (fun e => e.2) := by
    rw [assemble_header P c req r hasm, addHeaders_values, addHeaders_values]
    simp [GoMap.values]
  constructor
  · rw [hval]
    exact List.Sublist.append
      (contribution_sublist P.canon c.baseHeaders k _ (P.range_perm 0 c.baseHeaders))
      (contribution_sublist P.canon req.headers k _ (P.range_perm 1 req.headers))
  · intro hk
    rw [hval,
      contribution_eq P.canon c.baseHeaders k _ (P.range_perm 0 c.baseHeaders)
        (fun k2 h2 => hk k2 (Or.inl h2)),
      contribution_eq P.canon req.headers k _ (P.range_perm 1 req.headers)
        (fun k2 h2 => hk k2 (Or.inr h2))]

end MergeClaims

/-- Claim C5, as amended, at a concrete input: base header `x-env: test` and
request header `x-env: req` are carried under `X-Env` as `test`, `req`. -/
theorem merged_header_values_witness :
    mergedOutgoing.Header.values (lit "X-Env") = [lit "test", lit "req"] ∧
    mergedOutgoing.Header.values (CanonicalMIMEHeaderKey (lit "x-env")) =
      lowerCaseClient.baseHeaders.values (lit "x-env") ++
        headerRequest.headers.values (lit "x-env") :=
  ⟨by decide,
   (merged_header_values examplePlatform lowerCaseClient headerRequest mergedOutgoing rfl
      (lit "x-env")).2 (by
        intro k2 h2
        have hb : lowerCaseClient.baseHeaders.keys = [lit "x-env"] := by decide
        have hr : headerRequest.headers.keys = [lit "x-env"] := by decide
        rw [hb, hr] at h2
        have : k2 = lit "x-env" := by simpa using h2
        subst this
        simp)⟩

/-- Claim C5 fails as stated.  With the base header `x-env: test`, the outgoing
request carries nothing under `x-env` (the value is under `X-Env`), while the
base-header values for `x-env` followed by the request's are `test`.  With the
base headers `x-env: a` and `X-Env: b`, it carries two values under `X-Env`,
while the base-header values for `X-Env` followed by the request's are `b`
alone. -/
theorem merged_header_values_counterexample :
    NewClient [WithHeader (lit "x-env") (lit "test")] = some lowerCaseClient ∧
    (lowerCaseClient.assemble examplePlatform exampleRequest).toOption.map
        (fun r => r.Header.values (lit "x-env")) = some [] ∧
    (lowerCaseClient.assemble examplePlatform exampleRequest).toOption.map
        (fun r => r.Header.values (lit "X-Env")) = some [lit "test"] ∧
    lowerCaseClient.baseHeaders.values (lit "x-env") ++
        exampleRequest.headers.values (lit "x-env") = [lit "test"] ∧
    NewClient [WithHeader (lit "x-env") (lit "a"), WithHeader (lit "X-Env") (lit "b")]
        = some mixedCaseClient ∧
    (mixedCaseClient.assemble examplePlatform exampleRequest).toOption.map
        (fun r => r.Header.values (lit "X-Env")) = some [lit "b", lit "a"] ∧
    mixedCaseClient.baseHeaders.values (lit "X-Env") ++
        exampleRequest.headers.values (lit "X-Env") = [lit "b"] := by
  refine ⟨rfl, ?_, ?_, ?_, rfl, ?_, ?_⟩ <;> decide

/-! ## Client options -/

section Options

variable {σ Err URL Ctx : Type}

/-- Claim C6, on the code: for every proxy string `p`, `NewClient(WithProxy(p))`
panics when `p` does not parse and is otherwise the client `NewClient()` gives
with no option, whose transport is nil: the proxy is configured nowhere.  So
for `NewClient(WithProxy("http://proxy:8080"))`. -/
theorem WithProxy_leaves_transport_nil (parse : GoString → Except Err URL) (p : GoString) :
    (NewClient [WithProxy parse p] : Option (XiiClient σ Err URL Ctx)) =
      (match parse p with
        | .ok _ => some XiiClient.initial
        | .error _ => none) ∧
    (XiiClient.initial : XiiClient σ Err URL Ctx).client.Transport = none ∧
    (NewClient [WithProxy examplePlatform.parse (lit "http://proxy:8080")] :
        Option (XiiClient Nat GoString GoString Bool)).map (fun c => c.client.Transport)
      = some none := by
  refine ⟨?_, rfl, by decide⟩
  cases h : parse p <;> simp [NewClient, WithProxy, h, XiiClient.initial]

theorem WithHeader_eq (k v : GoString) (c : XiiClient σ Err URL Ctx) :
    WithHeader k v c =
      some { c with baseHeaders := c.baseHeaders.insert k (c.baseHeaders.values k ++ [v]) } := by
  unfold WithHeader GoMap.values
  cases h : c.baseHeaders.lookup k <;> simp

/-- Claim C8, as amended: for every client state, `WithBaseURL(u)`,
`WithTimeout(t)` and `WithProxy(p)` applied twice leave the client in the same
state as applied once; `WithHeader(k, v)` appends `v` to the base-header values
of `k` each time it is applied, so that applied once it leaves the former
values followed by `v`, and applied twice the former values followed by `v`,
`v`. -/
theorem options_reapplied (c : XiiClient σ Err URL Ctx) (u : GoString) (t : Int)
    (parse : GoString → Except Err URL) (p k v : GoString) :
    (WithBaseURL u c).bind (WithBaseURL u) = WithBaseURL u c ∧
    (WithTimeout t c).bind (WithTimeout t) = WithTimeout t c ∧
    (WithProxy parse p c).bind (WithProxy parse p) = WithProxy parse p c ∧
    (WithHeader k v c).map (fun c1 => c1.baseHeaders.values k)
      = some (c.baseHeaders.values k ++ [v]) ∧
    ((WithHeader k v c).bind (WithHeader k v)).map (fun c2 => c2.baseHeaders.values k)
      = some (c.baseHeaders.values k ++ [v, v]) := by
  refine ⟨rfl, rfl, ?_, ?_, ?_⟩
  · unfold WithProxy
    cases hp : parse p with
    | error err => rfl
    | ok proxyURL =>
      cases ht : c.client.Transport with
      | none => simp [hp, ht]
      | some rt =>
        cases rt with
        | httpTransport tr => simp [hp]
        | other id => simp [hp, ht]
  · simp [WithHeader_eq, values_insert]
  · simp [WithHeader_eq, values_insert]

end Options

/-- Claim C8 fails as stated for `WithHeader`: on the client `NewClient()`,
`WithHeader("X-Env", "test")` applied twice leaves the values `test`, `test`
under `X-Env`, applied once the value `test`. -/
theorem options_reapplied_counterexample :
    ((WithHeader (lit "X-Env") (lit "test") exampleClient).bind
        (WithHeader (lit "X-Env") (lit "test"))).map (fun c => c.baseHeaders)
      ≠ (WithHeader (lit "X-Env") (lit "test") exampleClient).map (fun c => c.baseHeaders) ∧
    ((WithHeader (lit "X-Env") (lit "test") exampleClient).bind
        (WithHeader (lit "X-Env") (lit "test"))).map
          (fun c => c.baseHeaders.values (lit "X-Env")) = some [lit "test", lit "test"] ∧
    (WithHeader (lit "X-Env") (lit "test") exampleClient).map
          (fun c => c.baseHeaders.values (lit "X-Env")) = some [lit "test"] := by
  refine ⟨?_, by decide, by decide⟩
  intro h
  exact absurd (congrArg (Option.map fun m : GoMap => m.values (lit "X-Env")) h) (by decide)

/-! ## The context -/

section Context

variable {σ Err URL Ctx : Type}

theorem assemble_ctx (P : Platform σ Err URL Ctx) (c : XiiClient σ Err URL Ctx)
    (req : XiiRequest Ctx) (r : HttpRequest URL Ctx) (hasm : c.assemble P req = .ok r) :
    r.ctx = P.background := by
  unfold XiiClient.assemble NewRequest at hasm
  cases hm : P.checkMethod req.method with
  | some err => simp [hm] at hasm
  | none =>
    cases hp : P.parse (c.baseURL ++ req.endpoint) with
    | error err => simp [hm, hp] at hasm
    | ok u =>
      simp only [hm, hp, Except.ok.injEq] at hasm
      rw [← hasm]
      split <;> rfl

/-- Claim C7, on the code: for every request and every context `ctx`, the
outgoing request `Do` assembles after `Context(ctx)` is the one it assembles
without that call, and its context is `context.Background()`; the calls `Do`
makes, the request handed to the transport among them, and the world it leaves
are the same with and without `Context(ctx)`.  So after `Context(true)` on a
client with no middleware the transport is handed `exampleOutgoing`, whose
context is `false`, the background context. -/
theorem Do_ignores_Context (P : Platform σ Err URL Ctx) (c : XiiClient σ Err URL Ctx)
    (req : XiiRequest Ctx) (ctx : Ctx) (w : σ) :
    c.assemble P (req.Context ctx) = c.assemble P req ∧
    (c.assemble P (req.Context ctx)).map (fun r => r.ctx)
      = (c.assemble P (req.Context ctx)).map (fun _ => P.background) ∧
    (c.Do P (req.Context ctx) w).trace = (c.Do P req w).trace ∧
    (c.Do P (req.Context ctx) w).world = (c.Do P req w).world ∧
    (exampleClient.Do examplePlatform (exampleRequest.Context true) 0).trace
      = [Event.roundTrip exampleOutgoing] ∧
    exampleOutgoing.ctx = false := by
  have h1 : c.assemble P (req.Context ctx) = c.assemble P req := rfl
  have h2 : (c.assemble P req).map (fun r => r.ctx)
      = (c.assemble P req).map (fun _ => P.background) := by
    cases h : c.assemble P req with
    | error err => rfl
    | ok r => simp [Except.map, assemble_ctx P c req r h]
  refine ⟨h1, by rw [h1]; exact h2, ?_, ?_, rfl, rfl⟩
  · unfold XiiClient.Do
    rw [h1]
    cases c.assemble P req with
    | error err => rfl
    | ok httpReq =>
      simp only
      rcases applyMiddleware c.middleware 0 w httpReq [] with ⟨w1, r1, tr, _ | err⟩
      · simp only
        rcases P.send w1 c.client r1 with ⟨w2, err | httpResp⟩
        · rfl
        · simp only
          cases httpResp.Body <;> rfl
      · rfl
  · unfold XiiClient.Do
    rw [h1]
    cases c.assemble P req with
    | error err => rfl
    | ok httpReq =>
      simp only
      rcases applyMiddleware c.middleware 0 w httpReq [] with ⟨w1, r1, tr, _ | err⟩
      · simp only
        rcases P.send w1 c.client r1 with ⟨w2, err | httpResp⟩
        · rfl
        · simp only
          cases httpResp.Body <;> rfl
      · rfl

end Context

/-! ## Typed bodies -/

section Bodies

variable {Ctx : Type}

/-- Claim C9, as amended: for every request, whatever headers it already
holds, after a typed body setter (`FormBody`, `MultipartFormBody`, `TextBody`,
`JSONBody`, `XMLBody`, `YAMLBody`) the stored `Content-Type` values are the
values held before the call followed by that setter's content type
(`application/x-www-form-urlencoded`, `multipart/form-data`, `text/plain`,
`application/json`, `application/xml`, `application/yaml`); on a new request
they are that one value. -/
theorem typed_body_content_type {α : Type} (req : XiiRequest Ctx) (background : Ctx)
    (encode : GoMap → GoString) (marshal : α → Option (List UInt8)) (formData : GoMap)
    (text : GoString) (data : α) :
    ((req.FormBody encode formData).GetHeaders.values (lit "Content-Type")
        = req.GetHeaders.values (lit "Content-Type") ++ [lit "application/x-www-form-urlencoded"] ∧
     (req.MultipartFormBody encode formData).GetHeaders.values (lit "Content-Type")
        = req.GetHeaders.values (lit "Content-Type") ++ [lit "multipart/form-data"] ∧
     (req.TextBody text).GetHeaders.values (lit "Content-Type")
        = req.GetHeaders.values (lit "Content-Type") ++ [lit "text/plain"] ∧
     (req.JSONBody marshal data).GetHeaders.values (lit "Content-Type")
        = req.GetHeaders.values (lit "Content-Type") ++ [lit "application/json"] ∧
     (req.XMLBody marshal data).GetHeaders.values (lit "Content-Type")
        = req.GetHeaders.values (lit "Content-Type") ++ [lit "application/xml"] ∧
     (req.YAMLBody marshal data).GetHeaders.values (lit "Content-Type")
        = req.GetHeaders.values (lit "Content-Type") ++ [lit "application/yaml"]) ∧
    (((XiiRequest.NewXiiRequest background).FormBody encode formData).GetHeaders.values
        (lit "Content-Type") = [lit "application/x-www-form-urlencoded"] ∧
     ((XiiRequest.NewXiiRequest background).MultipartFormBody encode formData).GetHeaders.values
        (lit "Content-Type") = [lit "multipart/form-data"] ∧
     ((XiiRequest.NewXiiRequest background).TextBody text).GetHeaders.values
        (lit "Content-Type") = [lit "text/plain"] ∧
     ((XiiRequest.NewXiiRequest background).JSONBody marshal data).GetHeaders.values
        (lit "Content-Type") = [lit "application/json"] ∧
     ((XiiRequest.NewXiiRequest background).XMLBody marshal data).GetHeaders.values
        (lit "Content-Type") = [lit "application/xml"] ∧
     ((XiiRequest.NewXiiRequest background).YAMLBody marshal data).GetHeaders.values
        (lit "Content-Type") = [lit "application/yaml"]) := by
  have hnew : (XiiRequest.NewXiiRequest background).headers.values (lit "Content-Type") = [] :=
    rfl
  have key : ∀ (r : XiiRequest Ctx) (ct : GoString) (b : Option (List UInt8)),
      GoMap.values ({ r.Header (lit "Content-Type") ct with body := b } : XiiRequest Ctx).headers
          (lit "Content-Type")
        = r.headers.values (lit "Content-Type") ++ [ct] := by
    intro r ct b
    show (r.Header (lit "Content-Type") ct).headers.values (lit "Content-Type") = _
    rw [Header_values, if_pos rfl]
  refine ⟨⟨key _ _ _, key _ _ _, key _ _ _, key _ _ _, key _ _ _, key _ _ _⟩, ?_⟩
  have knew : ∀ (ct : GoString) (b : Option (List UInt8)),
      GoMap.values ({ (XiiRequest.NewXiiRequest background).Header (lit "Content-Type") ct with
          body := b } : XiiRequest Ctx).headers (lit "Content-Type") = [ct] := by
    intro ct b
    rw [key, hnew, List.nil_append]
  exact ⟨knew _ _, knew _ _, knew _ _, knew _ _, knew _ _, knew _ _⟩

end Bodies

/-- Claim C9 fails as stated: on a request that already holds a `Content-Type`
value (here after `JSONBody`), `TextBody` leaves the two values
`application/json`, `text/plain` under `Content-Type`, not `text/plain`
alone. -/
theorem typed_body_content_type_counterexample :
    (((XiiRequest.NewXiiRequest false).JSONBody (fun _ : Unit => some []) ()).TextBody
        (lit "hi")).GetHeaders.values (lit "Content-Type")
      = [lit "application/json", lit "text/plain"] ∧
    (((XiiRequest.NewXiiRequest false).JSONBody (fun _ : Unit => some []) ()).TextBody
        (lit "hi")).GetHeaders.values (lit "Content-Type")
      ≠ [lit "text/plain"] := by
  constructor <;> decide

/-- Claim C2 at a concrete input: three values added under `Accept` to a
request that holds `Content-Type: text/plain`. -/
theorem Header_accumulates_witness :
    ([lit "a", lit "b", lit "a"].foldl (fun r v => r.Header (lit "Accept") v)
        ((XiiRequest.NewXiiRequest false).TextBody (lit "hi"))).GetHeaders.lookup
          (lit "Content-Type")
      = some [lit "text/plain"] ∧
    ([lit "a", lit "b", lit "a"].foldl (fun r v => r.Header (lit "Accept") v)
        (XiiRequest.NewXiiRequest false)).GetHeaders.values (lit "Accept")
      = [lit "a", lit "b", lit "a"] :=
  ⟨((Header_accumulates ((XiiRequest.NewXiiRequest false).TextBody (lit "hi")) false
      (lit "Accept") [lit "a", lit "b", lit "a"]).2.2 (lit "Content-Type") (by decide)).trans
      (by decide),
   (Header_accumulates ((XiiRequest.NewXiiRequest false).TextBody (lit "hi")) false
      (lit "Accept") [lit "a", lit "b", lit "a"]).2.1⟩

end XiiHttp
